import Mathlib

/-!
# Verification of the automated code-review workflow

A shallow embedding, in Lean 4, of the review pipeline implemented in
`app/agents/analyzer.py`, `app/agents/reviewer.py` and
`app/agents/orchestrator.py`.  Python dictionaries become structures,
strings become `String` (or `List Char` where character-level parsing is
involved), and every generative-capability call (LLM, retrieval backend)
is an oracle parameter of type `Except String _`: `Except.error` models
the call raising an exception, `Except.ok` models the structured value the
adapter extracted from the response.  All functions are executable.
-/

/-! ## String helpers

Python string primitives used by the source, re-implemented structurally
over `List Char` so that the kernel can evaluate them. -/

/-- Python `s[:n]`: the first `n` characters of a string. -/
def strTake (s : String) (n : Nat) : String := ⟨s.data.take n⟩

/-- Python `s.lower()` (ASCII case folding, which is all the source relies on). -/
def strLower (s : String) : String := ⟨s.data.map Char.toLower⟩

/-- The whitespace characters removed by Python `str.strip()`. -/
def isPyWs (c : Char) : Bool :=
  c = ' ' || c = '\t' || c = '\n' || c = '\r' || c = '\x0b' || c = '\x0c'

/-- Substring test (Python `pat in s`) on character lists. -/
def isInfixCh (pat : List Char) : List Char → Bool
  | [] => pat.isEmpty
  | c :: cs => pat.isPrefixOf (c :: cs) || isInfixCh pat cs

/-- Python `str.strip()` on a character list. -/
def trimCh (cs : List Char) : List Char :=
  ((cs.dropWhile isPyWs).reverse.dropWhile isPyWs).reverse

/-- Split a character list at newline characters; the analogue of
splitting a Python string into its lines (`re.MULTILINE` line structure). -/
def splitLinesCh : List Char → List (List Char)
  | [] => [[]]
  | c :: cs =>
    match splitLinesCh cs with
    | [] => [[]]
    | l :: ls => if c = '\n' then [] :: l :: ls else (c :: l) :: ls

/-! ## Review data model (`reviewer.py`) -/

/-- `ReviewComment` (reviewer.py): a single review comment. -/
structure ReviewComment where
  file_path : String
  line_number : Int
  side : String
  comment : String
  severity : String
  category : String
  suggested_code : Option String
deriving DecidableEq

/-- The `stats` dictionary assembled in `ReviewerAgent.review`. -/
structure ReviewStats where
  critical : Nat
  warning : Nat
  suggestion : Nat
  total : Nat
deriving DecidableEq

/-- `ReviewResult` (reviewer.py): the complete review of a submission. -/
structure ReviewResult where
  pr_number : Int
  overall_assessment : String
  approval_recommendation : String
  comments : List ReviewComment
  summary : String
  stats : ReviewStats
deriving DecidableEq

/-! ## Comment deduplication and severity counts (`reviewer.py`) -/

/-- The deduplication key used by `ReviewerAgent._deduplicate_comments`:
`(file_path, line_number, category, comment[:100])`. -/
def commentKey (c : ReviewComment) : String × Int × String × String :=
  (c.file_path, c.line_number, c.category, strTake c.comment 100)

/-- Generic seen-set deduplication loop, as written in
`_deduplicate_comments` and in the local `dedupe` of
`ReviewOrchestrator._merge_contexts`: walk the list, keep an element when
its key has not been seen yet. -/
def dedupeByKey {α κ : Type} [DecidableEq κ] (key : α → κ) :
    List κ → List α → List α
  | _, [] => []
  | seen, x :: xs =>
    if key x ∈ seen then dedupeByKey key seen xs
    else x :: dedupeByKey key (key x :: seen) xs

/-- `ReviewerAgent._deduplicate_comments`. -/
def deduplicateComments (comments : List ReviewComment) : List ReviewComment :=
  dedupeByKey commentKey [] comments

/-- Count of comments whose `severity` field is `"critical"`
(the expression `sum(1 for c in comments if c.get("severity") == "critical")`). -/
def countCritical (comments : List ReviewComment) : Nat :=
  comments.countP (fun c => c.severity = "critical")

/-- Count of comments whose `severity` field is `"warning"`. -/
def countWarning (comments : List ReviewComment) : Nat :=
  comments.countP (fun c => c.severity = "warning")

/-- Count of comments whose `severity` field is `"suggestion"`. -/
def countSuggestion (comments : List ReviewComment) : Nat :=
  comments.countP (fun c => c.severity = "suggestion")

/-- The `stats` dictionary of `ReviewerAgent.review` (lines 296-302). -/
def computeStats (comments : List ReviewComment) : ReviewStats :=
  { critical := countCritical comments
    warning := countWarning comments
    suggestion := countSuggestion comments
    total := comments.length }

/-! ## Overall assessment (`reviewer.py`, `_generate_overall_assessment`) -/

/-- The per-file review metadata collected in `ReviewerAgent.review` and
passed to `_generate_overall_assessment` (used only to build the summary
prompt). -/
structure FileReviewMeta where
  file : String
  assessment : String
  comment_count : Nat
deriving DecidableEq

/-- The dictionary returned by `_generate_overall_assessment`. -/
structure OverallOut where
  assessment : String
  recommendation : String
  summary : String
deriving DecidableEq

/-- Analysis data as consumed by the reviewer when generating the overall
assessment; only these fields of the analysis are read there.  (The full
`AnalysisResult` structure appears further below with the analyzer.) -/
structure AnalysisMeta where
  title : String
  total_files_changed : Nat
  total_additions : Nat
  total_deletions : Nat
  risk_level : String
deriving DecidableEq

/-- `ReviewerAgent._generate_overall_assessment`: count severities, derive
the recommendation from the counts, call the summary capability (the
`summaryCall` oracle: `Except.error` models `self.llm.ainvoke` raising,
`Except.ok s` models the response text `s`), and build the assessment
text.  The prompt formatting is not modelled; the oracle stands for the
whole call. -/
def generateOverallAssessment (analysis : AnalysisMeta)
    (comments : List ReviewComment) (fileReviews : List FileReviewMeta)
    (summaryCall : Except String String) : OverallOut :=
  let criticalCount := countCritical comments
  let warningCount := countWarning comments
  let recommendation :=
    if criticalCount > 0 then "request_changes"
    else if warningCount > 3 then "request_changes"
    else if warningCount > 0 then "comment"
    else "approve"
  let summary :=
    match summaryCall with
    | .ok s => s
    | .error _ => "Review completed with " ++ toString comments.length ++ " comments."
  let assessment :=
    if recommendation = "approve" then
      "This PR looks good and is ready to merge."
    else if recommendation = "request_changes" then
      "This PR has " ++ toString criticalCount ++ " critical and " ++
        toString warningCount ++
        " warning issues that should be addressed before merging."
    else
      "This PR has some suggestions for improvement but no blocking issues."
  { assessment := assessment, recommendation := recommendation, summary := summary }

/-- Final assembly performed at the end of `ReviewerAgent.review`
(lines 288-311): deduplicate the gathered comments, generate the overall
assessment over the deduplicated list, compute the stats, and build the
`ReviewResult`.  `rawComments` is the concatenation of all per-file
capability comments, which is the reviewer's input at this point. -/
def reviewAssemble (prNumber : Int) (analysis : AnalysisMeta)
    (rawComments : List ReviewComment) (fileReviews : List FileReviewMeta)
    (summaryCall : Except String String) : ReviewResult :=
  let allComments := deduplicateComments rawComments
  let overall := generateOverallAssessment analysis allComments fileReviews summaryCall
  { pr_number := prNumber
    overall_assessment := overall.assessment
    approval_recommendation := overall.recommendation
    comments := allComments
    summary := overall.summary
    stats := computeStats allComments }

/-! ## Analyzer data model (`analyzer.py`) -/

/-- `DiffHunk` (analyzer.py): one hunk of a unified diff.  Text fields are
kept as `List Char`, the representation the parser works over. -/
structure DiffHunk where
  old_start : Nat
  old_count : Nat
  new_start : Nat
  new_count : Nat
  header : List Char
  content : List Char
  added_lines : List (List Char)
  removed_lines : List (List Char)
deriving DecidableEq

/-- The per-file analysis dictionary produced by the Analysis capability
(`_llm_analyze_file`).  Each field is optional because the parsed JSON may
lack the key; the source reads them with `.get(key, default)`. -/
structure FileAnalysis where
  categories : Option (List String)
  risk_level : Option String
  summary : Option String
deriving DecidableEq

/-- `CodeChange` (analyzer.py): the record of one file's modification. -/
structure CodeChange where
  file_path : String
  change_type : String
  diff : String
  language : String
  hunks : List DiffHunk
  additions : Nat
  deletions : Nat
  analysis : Option FileAnalysis
deriving DecidableEq

/-- `AnalysisResult` (analyzer.py): the result of analyzing a submission. -/
structure AnalysisResult where
  pr_number : Int
  title : String
  total_files_changed : Nat
  total_additions : Nat
  total_deletions : Nat
  changes : List CodeChange
  summary : String
  risk_level : String
  categories : List String
deriving DecidableEq

/-! ## Language detection and skip classification (`analyzer.py`) -/

/-- The `extension_map` of `AnalyzerAgent._detect_language`, in its Python
insertion order (the first suffix match wins). -/
def extensionMap : List (String × String) :=
  [(".py", "python"), (".js", "javascript"), (".ts", "typescript"),
   (".jsx", "javascript"), (".tsx", "typescript"), (".java", "java"),
   (".go", "go"), (".rs", "rust"), (".cpp", "cpp"), (".cc", "cpp"),
   (".cxx", "cpp"), (".c", "c"), (".h", "c"), (".hpp", "cpp"),
   (".rb", "ruby"), (".php", "php"), (".swift", "swift"), (".kt", "kotlin"),
   (".kts", "kotlin"), (".scala", "scala"), (".cs", "csharp"),
   (".fs", "fsharp"), (".sql", "sql"), (".sh", "bash"), (".bash", "bash"),
   (".zsh", "zsh"), (".ps1", "powershell"), (".yaml", "yaml"),
   (".yml", "yaml"), (".json", "json"), (".xml", "xml"), (".html", "html"),
   (".htm", "html"), (".css", "css"), (".scss", "scss"), (".sass", "sass"),
   (".less", "less"), (".md", "markdown"), (".markdown", "markdown"),
   (".rst", "restructuredtext"), (".txt", "text"),
   (".dockerfile", "dockerfile"), (".tf", "terraform"), (".hcl", "hcl"),
   (".vue", "vue"), (".svelte", "svelte"), (".r", "r"), (".R", "r"),
   (".jl", "julia"), (".ex", "elixir"), (".exs", "elixir"),
   (".erl", "erlang"), (".clj", "clojure"), (".lisp", "lisp"),
   (".lua", "lua"), (".pl", "perl"), (".pm", "perl")]

/-- `AnalyzerAgent._detect_language`: any path containing "dockerfile"
case-insensitively is the build-file language; otherwise the first
matching suffix of the lowered path wins; otherwise `"unknown"`. -/
def detectLanguage (filePath : String) : String :=
  let pLow := (strLower filePath).data
  if "dockerfile".data.isSuffixOf pLow || isInfixCh "dockerfile".data pLow then
    "dockerfile"
  else
    match extensionMap.find? (fun e => e.1.data.isSuffixOf pLow) with
    | some e => e.2
    | none => "unknown"

/-- The `reviewable_languages` allowlist of `_should_skip_analysis`. -/
def reviewableLanguages : List String :=
  ["python", "javascript", "typescript", "java", "go", "rust",
   "cpp", "c", "csharp", "fsharp", "ruby", "php", "swift",
   "kotlin", "scala", "sql", "bash", "zsh", "powershell",
   "dockerfile", "terraform", "hcl", "vue", "svelte",
   "r", "julia", "elixir", "erlang", "clojure", "lisp", "lua", "perl"]

/-- The `skip_patterns` of `_should_skip_analysis` that are anchored at the
end of the path (regexes of the shape `...$`, matched case-insensitively). -/
def skipSuffixPatterns : List String :=
  [".lock", "package-lock.json", "yarn.lock", ".min.js", ".min.css",
   ".map", ".svg", ".png", ".jpg", ".jpeg", ".gif", ".ico",
   ".ttf", ".eot", ".pyc"]

/-- The unanchored `skip_patterns` of `_should_skip_analysis` (substring
matches, case-insensitively). -/
def skipInfixPatterns : List String :=
  [".woff", "__pycache__", "node_modules/", "vendor/", ".generated."]

/-- `AnalyzerAgent._should_skip_analysis`: denylisted paths always skip;
otherwise files whose language is not in the reviewable allowlist skip. -/
def shouldSkipAnalysis (filePath language : String) : Bool :=
  let pLow := (strLower filePath).data
  skipSuffixPatterns.any (fun pat => pat.data.isSuffixOf pLow)
    || skipInfixPatterns.any (fun pat => isInfixCh pat.data pLow)
    || !(reviewableLanguages.contains language)

/-! ## Diff decomposition (`analyzer.py`, `parse_diff_hunks`) -/

/-- The four numbers and trailing context captured by the hunk-header
regex `@@ -(\d+)(?:,(\d+))? \+(\d+)(?:,(\d+))? @@(.*)`. -/
structure HunkHeader where
  oldStart : Nat
  oldCount : Option Nat
  newStart : Nat
  newCount : Option Nat
  rest : List Char
deriving DecidableEq

/-- Numeric value of a digit string (the regex guarantees only digits). -/
def charsToNat (cs : List Char) : Nat :=
  cs.foldl (fun n c => 10 * n + (c.toNat - 48)) 0

/-- The optional `(?:,(\d+))?` group: consume `,` followed by at least one
digit, or consume nothing. -/
def parseOptCount (cs : List Char) : Option Nat × List Char :=
  match cs with
  | ',' :: rest =>
    let d := rest.takeWhile Char.isDigit
    if d.isEmpty then (none, cs)
    else (some (charsToNat d), rest.dropWhile Char.isDigit)
  | _ => (none, cs)

/-- Match one line against the hunk-header regex
`^@@ -(\d+)(?:,(\d+))? \+(\d+)(?:,(\d+))? @@(.*)$` of `parse_diff_hunks`. -/
def parseHunkHeader (line : List Char) : Option HunkHeader :=
  match line with
  | '@' :: '@' :: ' ' :: '-' :: r0 =>
    let d1 := r0.takeWhile Char.isDigit
    let r1 := r0.dropWhile Char.isDigit
    if d1.isEmpty then none
    else
      let oc := parseOptCount r1
      match oc.2 with
      | ' ' :: '+' :: r3 =>
        let d2 := r3.takeWhile Char.isDigit
        let r4 := r3.dropWhile Char.isDigit
        if d2.isEmpty then none
        else
          let nc := parseOptCount r4
          match nc.2 with
          | ' ' :: '@' :: '@' :: rest =>
            some ⟨charsToNat d1, oc.1, charsToNat d2, nc.1, rest⟩
          | _ => none
      | _ => none
  | _ => none

/-- Join body lines back with newlines: the text
`diff[match.end():next_match.start()]` up to the surrounding newlines,
which the subsequent `.strip()` removes anyway. -/
def intercalateNl : List (List Char) → List Char
  | [] => []
  | [l] => l
  | l :: ls => l ++ '\n' :: intercalateNl ls

/-- Build one `DiffHunk` from a parsed header and the raw body lines that
follow it, exactly as `parse_diff_hunks` does: `content` is the stripped
body text, a body line starting with `+` (but not `+++`) contributes an
added line, one starting with `-` (but not `---`) a removed line, counts
default to 1, and the trailing header context is stripped. -/
def mkHunk (hd : HunkHeader) (body : List (List Char)) : DiffHunk :=
  let content := trimCh (intercalateNl body)
  let lines := splitLinesCh content
  { old_start := hd.oldStart
    old_count := hd.oldCount.getD 1
    new_start := hd.newStart
    new_count := hd.newCount.getD 1
    header := trimCh hd.rest
    content := content
    added_lines := lines.filterMap (fun l =>
      if ['+'].isPrefixOf l && !(['+', '+', '+'].isPrefixOf l) then some (l.drop 1)
      else none)
    removed_lines := lines.filterMap (fun l =>
      if ['-'].isPrefixOf l && !(['-', '-', '-'].isPrefixOf l) then some (l.drop 1)
      else none) }

/-- One step of grouping the diff lines into hunks, consumed right to
left: a header line closes the body accumulated below it; any other line
joins the current body.  Lines above the first header are discarded, as
they are by `finditer`. -/
def parseStep (l : List Char) (acc : List (List Char) × List DiffHunk) :
    List (List Char) × List DiffHunk :=
  match parseHunkHeader l with
  | some hd => ([], mkHunk hd acc.1 :: acc.2)
  | none => (l :: acc.1, acc.2)

/-- `AnalyzerAgent.parse_diff_hunks`: split the diff text into lines, find
the hunk headers, and turn each header together with the body below it
into a `DiffHunk`; the empty diff yields no hunks. -/
def parse_diff_hunks (diff : List Char) : List DiffHunk :=
  if diff.isEmpty then []
  else ((splitLinesCh diff).foldr parseStep ([], [])).2

/-! ## Risk and category aggregation (`analyzer.py`, `analyze_pr`) -/

/-- The `risk_order` mapping `{low: 0, medium: 1, high: 2}` read with
`.get(risk, 0)`. -/
def riskOrder (r : String) : Nat :=
  if r = "low" then 0 else if r = "medium" then 1 else if r = "high" then 2 else 0

/-- The per-change risk the aggregation loop reads:
`change["analysis"].get("risk_level", "low")`, or nothing when the change
has no analysis. -/
def changeRiskD (c : CodeChange) : Option String :=
  c.analysis.map (fun a => a.risk_level.getD "low")

/-- The aggregation loop of `analyze_pr` (lines 172-182) computing
`max_risk`: start at `"low"` and replace it whenever a present per-change
risk has a strictly larger `risk_order`. -/
def aggRiskLevel (changes : List CodeChange) : String :=
  changes.foldl
    (fun maxRisk c =>
      match c.analysis with
      | some a =>
        let changeRisk := a.risk_level.getD "low"
        if riskOrder maxRisk < riskOrder changeRisk then changeRisk else maxRisk
      | none => maxRisk)
    "low"

/-- Insertion into the Python set `all_categories` (membership semantics;
the model keeps first-insertion order). -/
def setInsert (acc : List String) (x : String) : List String :=
  if x ∈ acc then acc else acc ++ [x]

/-- `all_categories.update(...)`: insert every element of `xs`. -/
def setUnionList (acc : List String) (xs : List String) : List String :=
  xs.foldl setInsert acc

/-- The aggregation loop of `analyze_pr` computing `all_categories`: the
union over the `categories` of every change whose analysis is present. -/
def aggCategories (changes : List CodeChange) : List String :=
  changes.foldl
    (fun acc c =>
      match c.analysis with
      | some a => setUnionList acc (a.categories.getD [])
      | none => acc)
    []

/-! ## Retrieved context (`context.py`) and merging (`orchestrator.py`) -/

/-- `ContextItem` (context.py): one retrieved item.  The relevance score
and metadata are never read by the orchestrator logic modelled here. -/
structure ContextItem where
  content : String
  source : String
deriving DecidableEq

/-- `RetrievedContext` (context.py): the per-file context bundle; also the
shape of the merged context built by `_merge_contexts`. -/
structure RetrievedContext where
  similar_reviews : List ContextItem
  coding_standards : List ContextItem
  documentation : List ContextItem
  summary : String
deriving DecidableEq

/-- The placeholder substituted by `_context_node` when a per-file
context-retrieval call raises. -/
def placeholderContext : RetrievedContext :=
  { similar_reviews := [], coding_standards := [], documentation := []
    summary := "Context retrieval failed." }

/-- The reduced context passed by `_error_node` on its degraded-recovery
attempt.  (In the source it is a dictionary holding only the `summary`
key; the reviewer reads only that key, so the list fields are empty.) -/
def degradedContext : RetrievedContext :=
  { similar_reviews := [], coding_standards := [], documentation := []
    summary := "Context unavailable - reviewing without historical context." }

/-- The deduplication key of the local `dedupe` in `_merge_contexts`:
`item.get("content", "")[:100]`. -/
def contextItemKey (item : ContextItem) : String := strTake item.content 100

/-- The local `dedupe` of `_merge_contexts`. -/
def dedupeContextItems (items : List ContextItem) : List ContextItem :=
  dedupeByKey contextItemKey [] items

/-- `ReviewOrchestrator._merge_contexts`: concatenate the per-file item
lists in mapping order, deduplicate each by content prefix, cap at
10/5/5, and join the per-file summaries. -/
def mergeContexts (contexts : List (String × RetrievedContext)) : RetrievedContext :=
  if contexts.isEmpty then
    { similar_reviews := [], coding_standards := [], documentation := []
      summary := "No context available." }
  else
    let allReviews := contexts.foldl (fun acc p => acc ++ p.2.similar_reviews) []
    let allStandards := contexts.foldl (fun acc p => acc ++ p.2.coding_standards) []
    let allDocs := contexts.foldl (fun acc p => acc ++ p.2.documentation) []
    let summaries := contexts.filterMap (fun p =>
      if p.2.summary ≠ "" then some ("**" ++ p.1 ++ ":** " ++ p.2.summary) else none)
    { similar_reviews := (dedupeContextItems allReviews).take 10
      coding_standards := (dedupeContextItems allStandards).take 5
      documentation := (dedupeContextItems allDocs).take 5
      summary := if summaries.isEmpty then "No context available."
                 else String.intercalate "\n\n" summaries }

/-! ## Python dictionary construction

`_context_node` gathers its per-file results with
`{file_path: ctx for file_path, ctx in results}`: first-insertion key
order, last write wins. -/

/-- One Python dictionary assignment `d[k] = v`. -/
def insertPair {β : Type} (d : List (String × β)) (k : String) (v : β) :
    List (String × β) :=
  if ∃ p ∈ d, p.1 = k then d.map (fun p => if p.1 = k then (k, v) else p)
  else d ++ [(k, v)]

/-- Build a Python dictionary (as an association list) from a sequence of
key-value pairs. -/
def dictOfPairs {β : Type} (ps : List (String × β)) : List (String × β) :=
  ps.foldl (fun d p => insertPair d p.1 p.2) []

/-! ## Submission input and capability ports -/

/-- One entry of `pr_data["files"]` as consumed by
`AnalyzerAgent._analyze_file_change`. -/
structure FileInput where
  filename : String
  status : String
  additions : Nat
  deletions : Nat
  patch : String
deriving DecidableEq

/-- The submission payload (`pr_data`) fields the pipeline reads. -/
structure PrData where
  number : Int
  title : String
  files : List FileInput
deriving DecidableEq

/-- The capability ports the pipeline consumes, as oracles fixed for one
run.  `Except.error e` models the call raising an exception with message
`e`; `Except.ok` models a successful structured response.
* `fileAnalysis`: the Analysis capability behind `_llm_analyze_file`
  (LLM call plus JSON extraction; the lenient-parse fallback of the
  adapter is part of the oracle, so a JSON-decode failure is an `ok`
  default, not an `error`).
* `overallSummary`: the summary text obtained by
  `_generate_overall_summary` when file analyses exist (its own JSON
  fallback again folded into the oracle; `error` models the LLM call
  raising, which propagates out of `analyze_pr`).
* `ctxRes`: the Context-Retrieval capability behind
  `ContextAgent.get_context`.
* `reviewRes`: the Review-Generation capability behind
  `ReviewerAgent.review`, as the orchestrator sees it: one call taking
  the analysis and a (merged or degraded) context. -/
structure Capabilities where
  fileAnalysis : FileInput → Except String FileAnalysis
  overallSummary : Except String String
  ctxRes : CodeChange → Except String RetrievedContext
  reviewRes : AnalysisResult → RetrievedContext → Except String ReviewResult

/-! ## The Analyze stage (`analyzer.py`) -/

/-- `AnalyzerAgent._analyze_file_change`: build the `CodeChange` record,
skip-classify, and otherwise invoke the Analysis capability; a capability
failure is caught and leaves `analysis` empty. -/
def analyzeFileChange (cap : Capabilities) (f : FileInput) : CodeChange :=
  let language := detectLanguage f.filename
  let change : CodeChange :=
    { file_path := f.filename
      change_type := f.status
      diff := f.patch
      language := language
      hunks := parse_diff_hunks f.patch.data
      additions := f.additions
      deletions := f.deletions
      analysis := none }
  if shouldSkipAnalysis f.filename language then change
  else
    match cap.fileAnalysis f with
    | .ok a => { change with analysis := some a }
    | .error _ => change

/-- `AnalyzerAgent._generate_overall_summary`: with no per-file analyses
it returns a default without calling the capability; otherwise the
summary capability is consulted and may raise. -/
def generateOverallSummary (cap : Capabilities)
    (fileAnalyses : List (String × FileAnalysis)) : Except String String :=
  if fileAnalyses.isEmpty then .ok "No analyzable changes found."
  else cap.overallSummary

/-- `AnalyzerAgent.analyze_pr`: process every file, total the counts,
generate the overall summary, and aggregate risk and categories.  The
only uncaught failure is the overall-summary capability raising. -/
def analyze_pr (cap : Capabilities) (pr : PrData) : Except String AnalysisResult :=
  let changes := pr.files.map (analyzeFileChange cap)
  let fileAnalyses := changes.filterMap (fun c => c.analysis.map (fun a => (c.file_path, a)))
  match generateOverallSummary cap fileAnalyses with
  | .error e => .error e
  | .ok overallSummary =>
    .ok { pr_number := pr.number
          title := pr.title
          total_files_changed := changes.length
          total_additions := (changes.map (fun c => c.additions)).sum
          total_deletions := (changes.map (fun c => c.deletions)).sum
          changes := changes
          summary := overallSummary
          risk_level := aggRiskLevel changes
          categories := aggCategories changes }

/-! ## The workflow engine (`orchestrator.py`) -/

/-- `ReviewState`: the record threaded through the graph. -/
structure ReviewState where
  pr_data : PrData
  analysis : Option AnalysisResult
  context : List (String × RetrievedContext)
  review : Option ReviewResult
  errors : List String
  status : String
  retry_count : Nat

/-- `_analyze_node`: run the analyzer; on success store the analysis and
status `analyzed`, on failure append an error string and status `error`. -/
def analyzeNode (cap : Capabilities) (s : ReviewState) : ReviewState :=
  match analyze_pr cap s.pr_data with
  | .ok a => { s with analysis := some a, status := "analyzed" }
  | .error e =>
    { s with errors := s.errors ++ ["Analysis failed: " ++ e], status := "error" }

/-- The per-file retrieval of `_context_node` (`get_file_context`): a
failing call is absorbed into an explicit placeholder. -/
def fileContext (cap : Capabilities) (c : CodeChange) : String × RetrievedContext :=
  match cap.ctxRes c with
  | .ok ctx => (c.file_path, ctx)
  | .error _ => (c.file_path, placeholderContext)

/-- `_context_node`: retrieve context for every change (the bounded
fan-out changes scheduling, not the gathered value), collect the results
into a path-keyed dictionary, and finish with status `context_retrieved`.
Reading `changes` off a missing analysis raises, which the node's own
handler turns into status `error`. -/
def contextNode (cap : Capabilities) (s : ReviewState) : ReviewState :=
  match s.analysis with
  | none =>
    { s with errors := s.errors ++ ["Context retrieval failed: analysis is missing"]
             status := "error" }
  | some a =>
    if a.changes.isEmpty then
      { s with context := [], status := "context_retrieved" }
    else
      { s with context := dictOfPairs (a.changes.map (fileContext cap))
               status := "context_retrieved" }

/-- `_review_node`: merge the per-file contexts and issue the single
Review-Generation call; a failure appends an error string and sets status
`error`. -/
def reviewNode (cap : Capabilities) (s : ReviewState) : ReviewState :=
  match s.analysis with
  | none =>
    { s with errors := s.errors ++ ["Review generation failed: analysis is missing"]
             status := "error" }
  | some a =>
    match cap.reviewRes a (mergeContexts s.context) with
    | .ok r => { s with review := some r, status := "reviewed" }
    | .error e =>
      { s with errors := s.errors ++ ["Review generation failed: " ++ e]
               status := "error" }

/-- `_store_learning_node`: best-effort storage; every failure is
swallowed, and the node always finishes with status `completed`. -/
def storeLearningNode (s : ReviewState) : ReviewState :=
  { s with status := "completed" }

/-- The fallback `ReviewResult` synthesized by `_error_node`. -/
def fallbackReview (prNumber : Int) (errors : List String) : ReviewResult :=
  { pr_number := prNumber
    overall_assessment := "Automated review could not be completed due to errors."
    approval_recommendation := "comment"
    comments := []
    summary := "The automated code review encountered errors and could not complete:\n\n"
      ++ String.intercalate "\n" (errors.map (fun e => "- " ++ e))
      ++ "\n\nPlease request a manual review."
    stats := { critical := 0, warning := 0, suggestion := 0, total := 0 } }

/-- `_error_node`: when an analysis exists and the recorded status is
exactly `context_retrieved`, attempt one degraded Review-Generation call
with the reduced context (success terminates as `completed_with_errors`);
in every other case, or when that attempt also fails, synthesize the
fallback result with terminal status `failed`. -/
def errorNode (cap : Capabilities) (s : ReviewState) : ReviewState :=
  let degraded : Option ReviewResult :=
    match s.analysis with
    | some a =>
      if s.status = "context_retrieved" then
        match cap.reviewRes a degradedContext with
        | .ok r => some r
        | .error _ => none
      else none
    | none => none
  match degraded with
  | some r => { s with review := some r, status := "completed_with_errors" }
  | none =>
    { s with review := some (fallbackReview s.pr_data.number s.errors)
             status := "failed" }

/-- `_should_continue_after_analysis`. -/
def routeAfterAnalysis (s : ReviewState) : String :=
  if s.status = "error" ∨ s.analysis.isNone then "error" else "continue"

/-- `_should_continue_after_context`. -/
def routeAfterContext (s : ReviewState) : String :=
  if s.status = "error" then "error" else "continue"

/-- `_should_continue_after_review`. -/
def routeAfterReview (s : ReviewState) : String :=
  if s.status = "error" ∨ s.review.isNone then "error" else "continue"

/-- The initial state built by `review_pr`. -/
def initialState (pr : PrData) : ReviewState :=
  { pr_data := pr, analysis := none, context := [], review := none
    errors := [], status := "started", retry_count := 0 }

/-- One full run of the compiled graph: analyze, route, context, route,
review, route, then store-learning or the error handler. -/
def runWorkflow (cap : Capabilities) (pr : PrData) : ReviewState :=
  let s1 := analyzeNode cap (initialState pr)
  if routeAfterAnalysis s1 = "error" then errorNode cap s1
  else
    let s2 := contextNode cap s1
    if routeAfterContext s2 = "error" then errorNode cap s2
    else
      let s3 := reviewNode cap s2
      if routeAfterReview s3 = "error" then errorNode cap s3
      else storeLearningNode s3

/-- `ReviewOrchestrator.review_pr`: run the graph and hand back the
review field of the final state.  (The surrounding `try` of the source
catches only failures of the graph engine itself, which has no
counterpart in this model.) -/
def review_pr (cap : Capabilities) (pr : PrData) : Option ReviewResult :=
  (runWorkflow cap pr).review

/-! ## Theorems -/

/-- A sample warning comment used in concrete instances. -/
def sampleWarning (p : String) : ReviewComment :=
  { file_path := p, line_number := 1, side := "RIGHT", comment := "possible bug"
    severity := "warning", category := "bug", suggested_code := none }

/-- Sample analysis metadata used in concrete instances. -/
def analysisMetaEx : AnalysisMeta :=
  { title := "Sample PR", total_files_changed := 1, total_additions := 4
    total_deletions := 0, risk_level := "low" }

/-- **C3**: the approval recommendation is `request_changes` exactly when a
critical comment exists or more than 3 warnings exist, else `comment` when
a warning exists, else `approve`; in particular 4 warnings and 0 criticals
give `request_changes` while 3 warnings and 0 criticals give `comment`. -/
theorem c3_recommendation_policy :
    (∀ (a : AnalysisMeta) (comments : List ReviewComment)
       (fr : List FileReviewMeta) (o : Except String String),
       (generateOverallAssessment a comments fr o).recommendation =
         if 0 < countCritical comments ∨ 3 < countWarning comments then
           "request_changes"
         else if 0 < countWarning comments then "comment"
         else "approve")
    ∧ (generateOverallAssessment analysisMetaEx
         [sampleWarning "a", sampleWarning "b", sampleWarning "c", sampleWarning "d"]
         [] (.ok "s")).recommendation = "request_changes"
    ∧ (generateOverallAssessment analysisMetaEx
         [sampleWarning "a", sampleWarning "b", sampleWarning "c"]
         [] (.ok "s")).recommendation = "comment" := by
  refine ⟨?_, by decide, by decide⟩
  intro a comments fr o
  simp only [generateOverallAssessment]
  by_cases hc : 0 < countCritical comments
  · simp [hc]
  · by_cases hw3 : 3 < countWarning comments
    · simp [hc, hw3]
    · by_cases hw : 0 < countWarning comments
      · simp [hc, hw3, hw]
      · simp [hc, hw3, hw]

/-- **C10**: the recommendation and assessment produced by the
overall-assessment step are functions of the severity counts of the
comment list alone; the summary capability outcome (including failure)
influences only the summary text. -/
theorem c10_assessment_depends_only_on_counts :
    (∀ (a₁ a₂ : AnalysisMeta) (cs₁ cs₂ : List ReviewComment)
       (fr₁ fr₂ : List FileReviewMeta) (o₁ o₂ : Except String String),
       countCritical cs₁ = countCritical cs₂ →
       countWarning cs₁ = countWarning cs₂ →
       (generateOverallAssessment a₁ cs₁ fr₁ o₁).recommendation =
         (generateOverallAssessment a₂ cs₂ fr₂ o₂).recommendation ∧
       (generateOverallAssessment a₁ cs₁ fr₁ o₁).assessment =
         (generateOverallAssessment a₂ cs₂ fr₂ o₂).assessment)
    ∧ (∀ (a : AnalysisMeta) (cs : List ReviewComment) (fr : List FileReviewMeta)
         (o : Except String String) (e : String),
       (generateOverallAssessment a cs fr (.error e)).recommendation =
         (generateOverallAssessment a cs fr o).recommendation ∧
       (generateOverallAssessment a cs fr (.error e)).assessment =
         (generateOverallAssessment a cs fr o).assessment) := by
  constructor
  · intro a₁ a₂ cs₁ cs₂ fr₁ fr₂ o₁ o₂ h1 h2
    refine ⟨?_, ?_⟩ <;> simp only [generateOverallAssessment, h1, h2]
  · intro a cs fr o e
    refine ⟨?_, ?_⟩ <;> simp only [generateOverallAssessment]

/-- Witness for C10 at concrete inputs: two runs over different comment
lists with equal severity counts, one with a failing summary capability,
agree on recommendation and assessment. -/
theorem c10_witness :
    (generateOverallAssessment analysisMetaEx [sampleWarning "a"] [] (.ok "fine")).recommendation =
      (generateOverallAssessment ⟨"Other", 2, 9, 9, "high"⟩ [sampleWarning "zz"]
        [⟨"f.py", "ok", 1⟩] (.error "llm down")).recommendation ∧
    (generateOverallAssessment analysisMetaEx [sampleWarning "a"] [] (.ok "fine")).assessment =
      (generateOverallAssessment ⟨"Other", 2, 9, 9, "high"⟩ [sampleWarning "zz"]
        [⟨"f.py", "ok", 1⟩] (.error "llm down")).assessment :=
  c10_assessment_depends_only_on_counts.1 analysisMetaEx ⟨"Other", 2, 9, 9, "high"⟩
    [sampleWarning "a"] [sampleWarning "zz"] [] [⟨"f.py", "ok", 1⟩]
    (.ok "fine") (.error "llm down") (by decide) (by decide)

/-! ### Deduplication lemmas -/

/-- The deduplicated list is a subsequence of the input. -/
theorem dedupeByKey_sublist {α κ : Type} [DecidableEq κ] (key : α → κ)
    (seen : List κ) (xs : List α) :
    List.Sublist (dedupeByKey key seen xs) xs := by
  induction xs generalizing seen with
  | nil => simp [dedupeByKey]
  | cons x xs ih =>
    simp only [dedupeByKey]
    split
    · exact (ih seen).cons x
    · exact (ih (key x :: seen)).cons₂ x

/-- Elements surviving deduplication had unseen keys. -/
theorem dedupeByKey_key_not_seen {α κ : Type} [DecidableEq κ] (key : α → κ)
    (seen : List κ) (xs : List α) :
    ∀ a ∈ dedupeByKey key seen xs, key a ∉ seen := by
  induction xs generalizing seen with
  | nil => simp [dedupeByKey]
  | cons x xs ih =>
    simp only [dedupeByKey]
    split
    · exact ih seen
    · intro a ha
      rcases List.mem_cons.mp ha with rfl | ha
      · assumption
      · intro hs
        exact ih (key x :: seen) a ha (List.mem_cons_of_mem _ hs)

/-- Deduplicated elements have pairwise distinct keys. -/
theorem dedupeByKey_pairwise {α κ : Type} [DecidableEq κ] (key : α → κ)
    (seen : List κ) (xs : List α) :
    (dedupeByKey key seen xs).Pairwise (fun a b => key a ≠ key b) := by
  induction xs generalizing seen with
  | nil => simp [dedupeByKey]
  | cons x xs ih =>
    simp only [dedupeByKey]
    split
    · exact ih seen
    · refine List.Pairwise.cons ?_ (ih (key x :: seen))
      intro b hb he
      exact dedupeByKey_key_not_seen key _ xs b hb (he ▸ List.mem_cons_self _ _)

/-- Every input element's key is represented in the deduplicated list
(unless it was already seen). -/
theorem dedupeByKey_covers {α κ : Type} [DecidableEq κ] (key : α → κ)
    (seen : List κ) (xs : List α) :
    ∀ a ∈ xs, key a ∈ seen ∨ ∃ b ∈ dedupeByKey key seen xs, key b = key a := by
  induction xs generalizing seen with
  | nil => simp
  | cons x xs ih =>
    intro a ha
    simp only [dedupeByKey]
    rcases List.mem_cons.mp ha with rfl | ha
    · split
      · exact Or.inl (by assumption)
      · exact Or.inr ⟨a, List.mem_cons_self _ _, rfl⟩
    · split
      · exact ih seen a ha
      · rcases ih (key x :: seen) a ha with hs | ⟨b, hb, hbk⟩
        · rcases List.mem_cons.mp hs with he | hs
          · exact Or.inr ⟨x, List.mem_cons_self _ _, he.symm⟩
          · exact Or.inl hs
        · exact Or.inr ⟨b, List.mem_cons_of_mem _ hb, hbk⟩

/-- Specification-side formulation of keeping the first occurrence of each
key: keep the head and recurse on the tail purged of the head's key. -/
def keepFirstByKey {α κ : Type} [DecidableEq κ] (key : α → κ) : List α → List α
  | [] => []
  | x :: xs => x :: keepFirstByKey key (xs.filter (fun y => decide (key y ≠ key x)))
termination_by l => l.length
decreasing_by
  simp only [List.length_cons]
  exact Nat.lt_succ_of_le (xs.length_filter_le _)

/-- The seen-set loop equals first-occurrence filtering, relative to an
arbitrary set of already-seen keys. -/
theorem dedupeByKey_eq_keepFirst {α κ : Type} [DecidableEq κ] (key : α → κ)
    (xs : List α) :
    ∀ seen : List κ,
      dedupeByKey key seen xs =
        keepFirstByKey key (xs.filter (fun x => decide (key x ∉ seen))) := by
  induction xs with
  | nil => intro seen; simp [dedupeByKey, keepFirstByKey]
  | cons x xs ih =>
    intro seen
    by_cases hx : key x ∈ seen
    · have hd : (decide (key x ∉ seen)) = false := by simp [hx]
      simp only [dedupeByKey, if_pos hx, List.filter_cons, hd, ite_false]
      exact ih seen
    · have hd : (decide (key x ∉ seen)) = true := by simp [hx]
      simp only [dedupeByKey, if_neg hx, List.filter_cons, hd, ite_true,
        keepFirstByKey]
      refine congrArg (x :: ·) ?_
      rw [ih (key x :: seen), List.filter_filter]
      congr 1
      apply List.filter_congr
      intro y _
      simp [not_or, decide_not]

/-- **C7**: comment deduplication keeps exactly the first occurrence of
each `(file_path, line_number, category, first-100-chars)` key, the
output is a subsequence of the input, the surviving keys are pairwise
distinct, and every input comment's key is represented by a survivor. -/
theorem c7_deduplicate_comments (comments : List ReviewComment) :
    deduplicateComments comments = keepFirstByKey commentKey comments
    ∧ List.Sublist (deduplicateComments comments) comments
    ∧ (deduplicateComments comments).Pairwise (fun a b => commentKey a ≠ commentKey b)
    ∧ ∀ c ∈ comments, ∃ d ∈ deduplicateComments comments, commentKey d = commentKey c := by
  refine ⟨?_, dedupeByKey_sublist commentKey [] comments,
    dedupeByKey_pairwise commentKey [] comments, ?_⟩
  · rw [deduplicateComments, dedupeByKey_eq_keepFirst]
    congr 1
    simp
  · intro c hc
    rcases dedupeByKey_covers commentKey [] comments c hc with hs | h
    · simp at hs
    · exact h

/-- Two comments identical in every key component, plus one differing only
in `line_number`. -/
def dupA : ReviewComment :=
  { file_path := "src/f.py", line_number := 10, side := "RIGHT"
    comment := "same body", severity := "warning", category := "style"
    suggested_code := none }

/-- A comment equal to `dupA` except for its target line. -/
def dupB : ReviewComment := { dupA with line_number := 11 }

/-- Witness for C7: two identical-key comments collapse to one while the
comment differing only in `line_number` survives distinctly. -/
theorem c7_witness :
    List.Sublist (deduplicateComments [dupA, dupA, dupB]) [dupA, dupA, dupB]
    ∧ (∃ d ∈ deduplicateComments [dupA, dupA, dupB], commentKey d = commentKey dupB)
    ∧ deduplicateComments [dupA, dupA, dupB] = keepFirstByKey commentKey [dupA, dupA, dupB] :=
  ⟨(c7_deduplicate_comments [dupA, dupA, dupB]).2.1,
   (c7_deduplicate_comments [dupA, dupA, dupB]).2.2.2 dupB (by decide),
   (c7_deduplicate_comments [dupA, dupA, dupB]).1⟩

/-- **C6**: each list of the merged context is the content-prefix
deduplication of the concatenated per-file lists, capped afterwards at
10/5/5; consequently the caps hold and the surviving content prefixes are
pairwise distinct. -/
theorem c6_merged_context_caps (contexts : List (String × RetrievedContext)) :
    (mergeContexts contexts).similar_reviews =
      (dedupeContextItems (contexts.foldl (fun acc p => acc ++ p.2.similar_reviews) [])).take 10
    ∧ (mergeContexts contexts).coding_standards =
      (dedupeContextItems (contexts.foldl (fun acc p => acc ++ p.2.coding_standards) [])).take 5
    ∧ (mergeContexts contexts).documentation =
      (dedupeContextItems (contexts.foldl (fun acc p => acc ++ p.2.documentation) [])).take 5
    ∧ (mergeContexts contexts).similar_reviews.length ≤ 10
    ∧ (mergeContexts contexts).coding_standards.length ≤ 5
    ∧ (mergeContexts contexts).documentation.length ≤ 5
    ∧ (mergeContexts contexts).similar_reviews.Pairwise
        (fun a b => contextItemKey a ≠ contextItemKey b)
    ∧ (mergeContexts contexts).coding_standards.Pairwise
        (fun a b => contextItemKey a ≠ contextItemKey b)
    ∧ (mergeContexts contexts).documentation.Pairwise
        (fun a b => contextItemKey a ≠ contextItemKey b) := by
  by_cases hc : contexts.isEmpty
  · have : contexts = [] := List.isEmpty_iff.mp hc
    subst this
    simp [mergeContexts, dedupeContextItems, dedupeByKey]
  · refine ⟨?_, ?_, ?_, ?_, ?_, ?_, ?_, ?_, ?_⟩ <;>
      simp only [mergeContexts, if_neg hc]
    · exact List.length_take_le _ _
    · exact List.length_take_le _ _
    · exact List.length_take_le _ _
    · exact (dedupeByKey_pairwise contextItemKey [] _).sublist (List.take_sublist _ _)
    · exact (dedupeByKey_pairwise contextItemKey [] _).sublist (List.take_sublist _ _)
    · exact (dedupeByKey_pairwise contextItemKey [] _).sublist (List.take_sublist _ _)

/-- Summing the three severity counters over a list whose severities all
lie in the enumerated set gives the list's length. -/
theorem counts_sum_of_valid (comments : List ReviewComment)
    (h : ∀ c ∈ comments,
      c.severity ∈ (["critical", "warning", "suggestion"] : List String)) :
    countCritical comments + countWarning comments + countSuggestion comments =
      comments.length := by
  induction comments with
  | nil => rfl
  | cons c cs ih =>
    have hc := h c (List.mem_cons_self _ _)
    have ihs := ih (fun d hd => h d (List.mem_cons_of_mem _ hd))
    simp only [List.mem_cons, List.mem_singleton, List.not_mem_nil, or_false] at hc
    simp only [countCritical, countWarning, countSuggestion,
      List.countP_cons, List.length_cons] at ihs ⊢
    rcases hc with hc | hc | hc <;> rw [hc] <;> simp <;> omega

/-- **C8**: in an assembled `ReviewResult` the `stats.total` equals the
length of the deduplicated comment list, the three severity counters are
non-negative, and (for severities within the enumerated set, as the
capability contract fixes them) they sum to `stats.total`. -/
theorem c8_stats_consistency (prNumber : Int) (a : AnalysisMeta)
    (raw : List ReviewComment) (fr : List FileReviewMeta)
    (o : Except String String) :
    (reviewAssemble prNumber a raw fr o).stats.total =
      (reviewAssemble prNumber a raw fr o).comments.length
    ∧ 0 ≤ (reviewAssemble prNumber a raw fr o).stats.critical
    ∧ 0 ≤ (reviewAssemble prNumber a raw fr o).stats.warning
    ∧ 0 ≤ (reviewAssemble prNumber a raw fr o).stats.suggestion
    ∧ ((∀ c ∈ (reviewAssemble prNumber a raw fr o).comments,
          c.severity ∈ (["critical", "warning", "suggestion"] : List String)) →
        (reviewAssemble prNumber a raw fr o).stats.critical +
          (reviewAssemble prNumber a raw fr o).stats.warning +
          (reviewAssemble prNumber a raw fr o).stats.suggestion =
          (reviewAssemble prNumber a raw fr o).stats.total) := by
  refine ⟨rfl, Nat.zero_le _, Nat.zero_le _, Nat.zero_le _, ?_⟩
  intro h
  exact counts_sum_of_valid _ h

/-- Witness for C8 at a concrete input: a raw list with a duplicate and
two severities assembles into stats with total 2 and consistent sum. -/
theorem c8_witness :
    (reviewAssemble 3 analysisMetaEx [dupA, dupA, dupB] [] (.ok "s")).stats.total =
      (reviewAssemble 3 analysisMetaEx [dupA, dupA, dupB] [] (.ok "s")).comments.length
    ∧ (reviewAssemble 3 analysisMetaEx [dupA, dupA, dupB] [] (.ok "s")).stats.critical +
        (reviewAssemble 3 analysisMetaEx [dupA, dupA, dupB] [] (.ok "s")).stats.warning +
        (reviewAssemble 3 analysisMetaEx [dupA, dupA, dupB] [] (.ok "s")).stats.suggestion =
        (reviewAssemble 3 analysisMetaEx [dupA, dupA, dupB] [] (.ok "s")).stats.total :=
  ⟨(c8_stats_consistency 3 analysisMetaEx [dupA, dupA, dupB] [] (.ok "s")).1,
   (c8_stats_consistency 3 analysisMetaEx [dupA, dupA, dupB] [] (.ok "s")).2.2.2.2
     (by decide)⟩

/-! ### Risk and category aggregation lemmas -/

/-- The three valid risk levels of the capability contract. -/
def validRiskLevels : List String := ["low", "medium", "high"]

/-- The per-change risks (with the `low` default) present in a change list. -/
def riskLevels (changes : List CodeChange) : List String :=
  changes.filterMap changeRiskD

/-- Modelled from the spec words: the larger of two risk levels under the
order low < medium < high. -/
def riskJoinSpec (a b : String) : String :=
  if a = "high" ∨ b = "high" then "high"
  else if a = "medium" ∨ b = "medium" then "medium"
  else "low"

/-- Modelled from the spec words: the maximum of a list of risk levels
under the order low < medium < high (the maximum of the empty list is
`low`). -/
def riskLevelMaxSpec (rs : List String) : String :=
  rs.foldl riskJoinSpec "low"

/-- On valid risk levels, one step of the aggregation loop computes the
join of the order low < medium < high. -/
theorem riskStep_eq_join (a r : String)
    (ha : a ∈ validRiskLevels) (hr : r ∈ validRiskLevels) :
    (if riskOrder a < riskOrder r then r else a) = riskJoinSpec a r := by
  simp only [validRiskLevels, List.mem_cons, List.mem_singleton,
    List.not_mem_nil, or_false] at ha hr
  rcases ha with rfl | rfl | rfl <;> rcases hr with rfl | rfl | rfl <;> decide

/-- Valid risk levels are closed under the join. -/
theorem riskJoinSpec_valid (a r : String)
    (ha : a ∈ validRiskLevels) (hr : r ∈ validRiskLevels) :
    riskJoinSpec a r ∈ validRiskLevels := by
  simp only [validRiskLevels, List.mem_cons, List.mem_singleton,
    List.not_mem_nil, or_false] at ha hr ⊢
  rcases ha with rfl | rfl | rfl <;> rcases hr with rfl | rfl | rfl <;> decide

/-- The aggregation loop of `analyze_pr` equals the spec-side maximum,
relative to any valid accumulator. -/
theorem aggRisk_go (changes : List CodeChange) :
    ∀ acc : String, acc ∈ validRiskLevels →
      (∀ r ∈ riskLevels changes, r ∈ validRiskLevels) →
      changes.foldl
        (fun maxRisk c =>
          match c.analysis with
          | some a =>
            let changeRisk := a.risk_level.getD "low"
            if riskOrder maxRisk < riskOrder changeRisk then changeRisk else maxRisk
          | none => maxRisk)
        acc = (riskLevels changes).foldl riskJoinSpec acc := by
  induction changes with
  | nil => intro acc _ _; rfl
  | cons c cs ih =>
    intro acc hacc hv
    cases hca : c.analysis with
    | none =>
      have hrl : riskLevels (c :: cs) = riskLevels cs := by
        simp [riskLevels, List.filterMap_cons, changeRiskD, hca]
      rw [hrl] at hv
      simp only [List.foldl_cons, hca, hrl]
      exact ih acc hacc hv
    | some a =>
      have hrl : riskLevels (c :: cs) = (a.risk_level.getD "low") :: riskLevels cs := by
        simp [riskLevels, List.filterMap_cons, changeRiskD, hca]
      rw [hrl] at hv
      have hr : a.risk_level.getD "low" ∈ validRiskLevels :=
        hv _ (List.mem_cons_self _ _)
      have hvs : ∀ r ∈ riskLevels cs, r ∈ validRiskLevels :=
        fun r hrm => hv r (List.mem_cons_of_mem _ hrm)
      simp only [List.foldl_cons, hca, hrl]
      rw [riskStep_eq_join acc _ hacc hr]
      exact ih _ (riskJoinSpec_valid acc _ hacc hr) hvs

/-- Membership in a set-style insertion. -/
theorem mem_setInsert (acc : List String) (x y : String) :
    y ∈ setInsert acc x ↔ y ∈ acc ∨ y = x := by
  unfold setInsert
  split
  · constructor
    · exact Or.inl
    · rintro (h | rfl)
      · exact h
      · assumption
  · simp [List.mem_append]

/-- Membership in a set-style union. -/
theorem mem_setUnionList (xs : List String) :
    ∀ (acc : List String) (y : String),
      y ∈ setUnionList acc xs ↔ y ∈ acc ∨ y ∈ xs := by
  induction xs with
  | nil => intro acc y; simp [setUnionList]
  | cons x xs ih =>
    intro acc y
    simp only [setUnionList, List.foldl_cons] at ih ⊢
    rw [ih (setInsert acc x) y, mem_setInsert]
    simp only [List.mem_cons]
    tauto

/-- Membership in the category aggregation loop, relative to any
accumulator. -/
theorem mem_aggCategories_go (changes : List CodeChange) :
    ∀ (acc : List String) (y : String),
      y ∈ changes.foldl
        (fun acc c =>
          match c.analysis with
          | some a => setUnionList acc (a.categories.getD [])
          | none => acc)
        acc
      ↔ y ∈ acc ∨ ∃ c ∈ changes, ∃ a, c.analysis = some a ∧ y ∈ a.categories.getD [] := by
  induction changes with
  | nil => intro acc y; simp
  | cons c cs ih =>
    intro acc y
    cases hca : c.analysis with
    | none =>
      simp only [List.foldl_cons, hca]
      rw [ih acc y]
      constructor
      · rintro (h | ⟨d, hd, a, hda, hy⟩)
        · exact Or.inl h
        · exact Or.inr ⟨d, List.mem_cons_of_mem _ hd, a, hda, hy⟩
      · rintro (h | ⟨d, hd, a, hda, hy⟩)
        · exact Or.inl h
        · rcases List.mem_cons.mp hd with rfl | hd
          · rw [hca] at hda; cases hda
          · exact Or.inr ⟨d, hd, a, hda, hy⟩
    | some a =>
      simp only [List.foldl_cons, hca]
      rw [ih _ y, mem_setUnionList]
      constructor
      · rintro ((h | h) | ⟨d, hd, b, hdb, hy⟩)
        · exact Or.inl h
        · exact Or.inr ⟨c, List.mem_cons_self _ _, a, hca, h⟩
        · exact Or.inr ⟨d, List.mem_cons_of_mem _ hd, b, hdb, hy⟩
      · rintro (h | ⟨d, hd, b, hdb, hy⟩)
        · exact Or.inl (Or.inl h)
        · rcases List.mem_cons.mp hd with rfl | hd
          · rw [hca] at hdb
            cases hdb
            exact Or.inl (Or.inr hy)
          · exact Or.inr ⟨d, hd, b, hdb, hy⟩

/-- **C4**: submission-level risk is the maximum, under low < medium <
high, of the per-change risks present (defaulting to `low`), the
submission categories are the union of the per-change category sets, and
`analyze_pr` installs exactly these aggregates in its result. -/
theorem c4_risk_max_and_categories_union (changes : List CodeChange)
    (hv : ∀ r ∈ riskLevels changes, r ∈ validRiskLevels) :
    aggRiskLevel changes = riskLevelMaxSpec (riskLevels changes)
    ∧ (∀ x, x ∈ aggCategories changes ↔
        ∃ c ∈ changes, ∃ a, c.analysis = some a ∧ x ∈ a.categories.getD [])
    ∧ (∀ (cap : Capabilities) (pr : PrData) (res : AnalysisResult),
        analyze_pr cap pr = .ok res →
        res.risk_level = aggRiskLevel res.changes ∧
        res.categories = aggCategories res.changes) := by
  refine ⟨?_, ?_, ?_⟩
  · exact aggRisk_go changes "low" (by decide) hv
  · intro x
    rw [aggCategories, mem_aggCategories_go changes [] x]
    simp
  · intro cap pr res h
    simp only [analyze_pr] at h
    split at h
    · exact Except.noConfusion h
    · injection h with h
      subst h
      exact ⟨rfl, rfl⟩

/-- A concrete change list for the C4 witness: one medium-risk bugfix,
one skipped file, one high-risk change. -/
def c4Changes : List CodeChange :=
  [{ file_path := "a.py", change_type := "modified", diff := "d"
     language := "python", hunks := [], additions := 1, deletions := 0
     analysis := some { categories := some ["bugfix"], risk_level := some "medium"
                        summary := none } },
   { file_path := "b.png", change_type := "added", diff := "d"
     language := "unknown", hunks := [], additions := 0, deletions := 0
     analysis := none },
   { file_path := "c.py", change_type := "modified", diff := "d"
     language := "python", hunks := [], additions := 2, deletions := 2
     analysis := some { categories := some ["feature", "bugfix"]
                        risk_level := some "high", summary := none } }]

/-- Witness for C4 at a concrete change list. -/
theorem c4_witness :
    aggRiskLevel c4Changes = riskLevelMaxSpec (riskLevels c4Changes)
    ∧ ("bugfix" ∈ aggCategories c4Changes ↔
        ∃ c ∈ c4Changes, ∃ a, c.analysis = some a ∧ "bugfix" ∈ a.categories.getD []) :=
  ⟨(c4_risk_max_and_categories_union c4Changes (by decide)).1,
   (c4_risk_max_and_categories_union c4Changes (by decide)).2.1 "bugfix"⟩

/-! ### Dictionary lemmas -/

/-- Assigning a fresh key appends the pair. -/
theorem insertPair_of_fresh {β : Type} (d : List (String × β)) (k : String)
    (v : β) (h : ∀ p ∈ d, p.1 ≠ k) : insertPair d k v = d ++ [(k, v)] := by
  unfold insertPair
  rw [if_neg]
  rintro ⟨p, hp, hpk⟩
  exact h p hp hpk

/-- Building a dictionary from pairs with pairwise-distinct keys keeps
them all, in order, relative to any prefix already inserted. -/
theorem dictOfPairs_go {β : Type} (ps : List (String × β)) :
    ∀ d : List (String × β), ((d ++ ps).map Prod.fst).Nodup →
      ps.foldl (fun d p => insertPair d p.1 p.2) d = d ++ ps := by
  induction ps with
  | nil => intro d _; simp
  | cons p ps ih =>
    intro d hnd
    have hfresh : ∀ q ∈ d, q.1 ≠ p.1 := by
      intro q hq
      rw [List.map_append, List.nodup_append] at hnd
      exact fun he =>
        hnd.2.2 (List.mem_map_of_mem Prod.fst hq)
          (he ▸ List.mem_map_of_mem Prod.fst (List.mem_cons_self p ps))
    have hstep : insertPair d p.1 p.2 = d ++ [p] := by
      rw [insertPair_of_fresh d p.1 p.2 hfresh]
    have hassoc : (d ++ [p]) ++ ps = d ++ p :: ps := by
      rw [List.append_assoc, List.singleton_append]
    simp only [List.foldl_cons, hstep]
    rw [ih (d ++ [p]) (by rw [hassoc]; exact hnd), hassoc]

/-- With pairwise-distinct keys, the Python dictionary comprehension is
the identity on the pair list. -/
theorem dictOfPairs_of_nodup_keys {β : Type} (ps : List (String × β))
    (h : (ps.map Prod.fst).Nodup) : dictOfPairs ps = ps := by
  have := dictOfPairs_go ps [] (by simpa using h)
  simpa [dictOfPairs] using this

/-- A per-file context result is always keyed by the file's path. -/
theorem fileContext_fst (cap : Capabilities) (c : CodeChange) :
    (fileContext cap c).1 = c.file_path := by
  unfold fileContext
  cases cap.ctxRes c <;> rfl

/-- **C5**: per-file capability failures are absorbed locally.  A failed
Analysis call leaves that file's `analysis` empty while the change list
still covers every file, `analyze_pr` can fail only through the
overall-summary capability (never through a per-file call), and the
Context stage finishes with status `context_retrieved` with a failed
file's context replaced by the explicit placeholder. -/
theorem c5_per_file_failure_absorbed :
    (∀ (cap : Capabilities) (f : FileInput) (e : String),
       shouldSkipAnalysis f.filename (detectLanguage f.filename) = false →
       cap.fileAnalysis f = .error e →
       (analyzeFileChange cap f).analysis = none)
    ∧ (∀ (cap : Capabilities) (pr : PrData) (res : AnalysisResult),
       analyze_pr cap pr = .ok res →
       res.changes = pr.files.map (analyzeFileChange cap))
    ∧ (∀ (cap : Capabilities) (pr : PrData) (e : String),
       analyze_pr cap pr = .error e → cap.overallSummary = .error e)
    ∧ (∀ (cap : Capabilities) (s : ReviewState) (a : AnalysisResult),
       s.analysis = some a →
       (contextNode cap s).status = "context_retrieved"
       ∧ ((a.changes.map CodeChange.file_path).Nodup →
          ∀ c ∈ a.changes, ∀ e, cap.ctxRes c = .error e →
          (c.file_path, placeholderContext) ∈ (contextNode cap s).context)) := by
  refine ⟨?_, ?_, ?_, ?_⟩
  · intro cap f e hskip herr
    simp only [analyzeFileChange, hskip, Bool.false_eq_true, if_false, herr]
  · intro cap pr res h
    simp only [analyze_pr] at h
    split at h
    · exact Except.noConfusion h
    · injection h with h
      subst h
      rfl
  · intro cap pr e h
    simp only [analyze_pr] at h
    split at h
    · rename_i e2 hg
      injection h with h
      subst h
      simp only [generateOverallSummary] at hg
      split at hg
      · exact Except.noConfusion hg
      · exact hg
    · exact Except.noConfusion h
  · intro cap s a ha
    simp only [contextNode, ha]
    by_cases hc : a.changes.isEmpty
    · refine ⟨by simp [hc], ?_⟩
      intro _ c hcm
      rw [List.isEmpty_iff.mp hc] at hcm
      exact absurd hcm (List.not_mem_nil c)
    · refine ⟨by simp [hc], ?_⟩
      intro hnd c hcm e herr
      simp only [hc, Bool.false_eq_true, if_false]
      have hkeys : ((a.changes.map (fileContext cap)).map Prod.fst).Nodup := by
        rw [List.map_map]
        have : (Prod.fst ∘ fileContext cap) = CodeChange.file_path := by
          funext c2
          exact fileContext_fst cap c2
        rw [this]
        exact hnd
      rw [dictOfPairs_of_nodup_keys _ hkeys]
      have : fileContext cap c = (c.file_path, placeholderContext) := by
        unfold fileContext
        rw [herr]
      exact this ▸ List.mem_map_of_mem (fileContext cap) hcm

/-- Capability oracles for the C5 witness: every per-file call fails,
while the overall summary succeeds. -/
def capFailing : Capabilities :=
  { fileAnalysis := fun _ => .error "analysis backend down"
    overallSummary := .ok "summary"
    ctxRes := fun _ => .error "retrieval backend down"
    reviewRes := fun _ _ => .error "review backend down" }

/-- A reviewable file input for the C5 witness. -/
def fileInputEx : FileInput :=
  { filename := "app.py", status := "modified", additions := 1, deletions := 0
    patch := "" }

/-- A single change for the C5 witness. -/
def changeEx : CodeChange :=
  { file_path := "app.py", change_type := "modified", diff := "d"
    language := "python", hunks := [], additions := 1, deletions := 0
    analysis := none }

/-- A one-change analysis for the C5 witness. -/
def analysisEx : AnalysisResult :=
  { pr_number := 1, title := "t", total_files_changed := 1, total_additions := 1
    total_deletions := 0, changes := [changeEx]
    summary := "s", risk_level := "low", categories := [] }

/-- A state entering the Context stage for the C5 witness. -/
def stateEx : ReviewState :=
  { pr_data := { number := 1, title := "t", files := [fileInputEx] }
    analysis := some analysisEx, context := [], review := none, errors := []
    status := "analyzed", retry_count := 0 }

/-- Witness for C5: with failing per-file capabilities, the analysis stays
empty, the context stage still reports `context_retrieved`, and the failed
file maps to the placeholder. -/
theorem c5_witness :
    (analyzeFileChange capFailing fileInputEx).analysis = none
    ∧ (contextNode capFailing stateEx).status = "context_retrieved"
    ∧ ("app.py", placeholderContext) ∈ (contextNode capFailing stateEx).context :=
  ⟨c5_per_file_failure_absorbed.1 capFailing fileInputEx "analysis backend down"
      (by decide) rfl,
   (c5_per_file_failure_absorbed.2.2.2 capFailing stateEx analysisEx rfl).1,
   (c5_per_file_failure_absorbed.2.2.2 capFailing stateEx analysisEx rfl).2
      (by decide) changeEx (by decide) "retrieval backend down" rfl⟩

/-! ### Diff decomposition lemmas -/

/-- Re-prefixing the lines extracted for a marker character reproduces
exactly the marked lines of the body, as a filter of its lines. -/
theorem marked_lines_restore (m : Char) (lines : List (List Char)) :
    (lines.filterMap (fun l =>
        if [m].isPrefixOf l && !([m, m, m].isPrefixOf l) then some (l.drop 1)
        else none)).map (fun t => m :: t)
      = lines.filter (fun l => [m].isPrefixOf l && !([m, m, m].isPrefixOf l)) := by
  induction lines with
  | nil => rfl
  | cons l ls ih =>
    by_cases hp : ([m].isPrefixOf l && !([m, m, m].isPrefixOf l)) = true
    · obtain ⟨t, rfl⟩ : ∃ t, l = m :: t := by
        have h1 : [m].isPrefixOf l = true := ((Bool.and_eq_true _ _).mp hp).1
        rw [List.isPrefixOf_iff_prefix] at h1
        obtain ⟨t, ht⟩ := h1
        exact ⟨t, ht.symm⟩
      simp only [List.filterMap_cons, List.filter_cons, hp, ite_true, List.map_cons]
      rw [ih]
      rfl
    · have hcond : ([m].isPrefixOf l && !([m, m, m].isPrefixOf l)) = false := by
        cases hx : ([m].isPrefixOf l && !([m, m, m].isPrefixOf l)) with
        | false => rfl
        | true => exact absurd hx hp
      simp only [List.filterMap_cons, List.filter_cons, hcond, Bool.false_eq_true,
        ite_false, if_false]
      exact ih

/-- Every hunk produced by the grouping fold is built by `mkHunk`. -/
theorem parse_hunk_shape (lines : List (List Char)) :
    ∀ (acc : List (List Char) × List DiffHunk) (h : DiffHunk),
      h ∈ (lines.foldr parseStep acc).2 →
      h ∈ acc.2 ∨ ∃ hd body, h = mkHunk hd body := by
  induction lines with
  | nil => intro acc h hm; exact Or.inl hm
  | cons l ls ih =>
    intro acc h hm
    simp only [List.foldr_cons] at hm
    unfold parseStep at hm
    cases hh : parseHunkHeader l with
    | some hd =>
      rw [hh] at hm
      rcases List.mem_cons.mp hm with rfl | hm
      · exact Or.inr ⟨hd, (ls.foldr parseStep acc).1, rfl⟩
      · exact ih acc h hm
    | none =>
      rw [hh] at hm
      exact ih acc h hm

/-- The round-trip property holds for every hunk `mkHunk` builds: the
re-prefixed added and removed lines are order-preserving subsequences of
the lines of the hunk's retained body text. -/
theorem mkHunk_roundtrip (hd : HunkHeader) (body : List (List Char)) :
    List.Sublist ((mkHunk hd body).added_lines.map (fun l => '+' :: l))
      (splitLinesCh (mkHunk hd body).content)
    ∧ List.Sublist ((mkHunk hd body).removed_lines.map (fun l => '-' :: l))
      (splitLinesCh (mkHunk hd body).content) := by
  simp only [mkHunk]
  constructor
  · rw [marked_lines_restore]
    exact List.filter_sublist _
  · rw [marked_lines_restore]
    exact List.filter_sublist _

/-- **C9 (amended)**: for every diff text and every hunk the decomposer
extracts, prefixing the added lines with `+` (the removed lines with `-`)
yields an order-preserving subsequence of the lines of that hunk's
retained body text (`content`); hence a subset of that line set with order
preserved within each class.  (The stripped body can differ from the raw
diff in its boundary lines, so the subset relation is to `content`, not to
the original diff text; see the counterexample.) -/
theorem c9_roundtrip_content (diff : List Char) (h : DiffHunk)
    (hmem : h ∈ parse_diff_hunks diff) :
    List.Sublist (h.added_lines.map (fun l => '+' :: l)) (splitLinesCh h.content)
    ∧ List.Sublist (h.removed_lines.map (fun l => '-' :: l)) (splitLinesCh h.content) := by
  unfold parse_diff_hunks at hmem
  split at hmem
  · exact absurd hmem (List.not_mem_nil h)
  · rcases parse_hunk_shape (splitLinesCh diff) ([], []) h hmem with hm | ⟨hd, body, rfl⟩
    · exact absurd hm (List.not_mem_nil h)
    · exact mkHunk_roundtrip hd body

/-- The diff refuting C9 as stated: the hunk body's single line is the
context line `" +foo"`, whose leading whitespace `strip()` removes, so the
extracted added line re-prefixes to `"+foo"`, which is not a line of the
original diff. -/
def c9Diff : List Char := "@@ -1 +1 @@\n +foo".data

/-- Counterexample to C9 as stated: re-prefixing this hunk's added lines
with `+` does not reproduce a subset of the original diff's line set. -/
theorem c9_counterexample :
    ¬ ∀ h ∈ parse_diff_hunks c9Diff, ∀ l ∈ h.added_lines,
        ('+' :: l) ∈ splitLinesCh c9Diff := by decide

/-- The sample diff of the specification's test scenario. -/
def c9Sample : List Char :=
  "@@ -1,3 +1,4 @@\n line1\n-old line\n+new line\n+added line\n line3".data

/-- The hunk the decomposer extracts from `c9Sample`. -/
def c9SampleHunk : DiffHunk :=
  { old_start := 1, old_count := 3, new_start := 1, new_count := 4
    header := []
    content := "line1\n-old line\n+new line\n+added line\n line3".data
    added_lines := ["new line".data, "added line".data]
    removed_lines := ["old line".data] }

/-- Witness for the amended C9 at the specification's sample diff. -/
theorem c9_witness :
    List.Sublist (c9SampleHunk.added_lines.map (fun l => '+' :: l))
      (splitLinesCh c9SampleHunk.content)
    ∧ List.Sublist (c9SampleHunk.removed_lines.map (fun l => '-' :: l))
      (splitLinesCh c9SampleHunk.content) :=
  c9_roundtrip_content c9Sample c9SampleHunk (by decide)

/-! ### Workflow lemmas -/

/-- With an analysis present, the Context node fills the path-keyed
mapping and always reports `context_retrieved`. -/
theorem contextNode_some (cap : Capabilities) (s : ReviewState) (a : AnalysisResult)
    (h : s.analysis = some a) :
    contextNode cap s =
      { s with context := if a.changes.isEmpty then []
                          else dictOfPairs (a.changes.map (fileContext cap))
               status := "context_retrieved" } := by
  simp only [contextNode, h]
  by_cases hc : a.changes.isEmpty
  · simp [hc]
  · simp [hc]

/-- Every run terminates either as `completed` carrying a
capability-generated review, or as `failed` carrying the synthesized
fallback review over the accumulated errors. -/
theorem workflow_terminal (cap : Capabilities) (pr : PrData) :
    ((runWorkflow cap pr).status = "completed" ∧
      ∃ a ctx r, cap.reviewRes a ctx = Except.ok r ∧ (runWorkflow cap pr).review = some r)
    ∨ ((runWorkflow cap pr).status = "failed" ∧
        (runWorkflow cap pr).review =
          some (fallbackReview pr.number (runWorkflow cap pr).errors)) := by
  unfold runWorkflow
  cases hA : analyze_pr cap pr with
  | error e =>
    right
    simp [analyzeNode, hA, initialState, routeAfterAnalysis, errorNode]
  | ok a =>
    simp only [analyzeNode, hA, initialState]
    rw [contextNode_some cap _ a rfl]
    generalize (if a.changes.isEmpty then ([] : List (String × RetrievedContext))
      else dictOfPairs (a.changes.map (fileContext cap))) = ctxl
    cases hR : cap.reviewRes a (mergeContexts ctxl) with
    | ok r =>
      left
      simp [reviewNode, routeAfterAnalysis, routeAfterContext, routeAfterReview,
        storeLearningNode, hR]
      exact ⟨a, mergeContexts ctxl, hR⟩
    | error e =>
      right
      simp [reviewNode, routeAfterAnalysis, routeAfterContext, routeAfterReview,
        errorNode, hR]

/-- **C2**: the public entry point always hands back a `ReviewResult`: on
every run the final state carries one, and it is either the
fallback result synthesized from the accumulated errors or a result the
Review-Generation capability produced. -/
theorem c2_run_always_returns_review (cap : Capabilities) (pr : PrData) :
    ∃ r, review_pr cap pr = some r ∧
      (r = fallbackReview pr.number (runWorkflow cap pr).errors
       ∨ ∃ a ctx, cap.reviewRes a ctx = Except.ok r) := by
  rcases workflow_terminal cap pr with ⟨_, a, ctx, r, hR, hrev⟩ | ⟨_, hrev⟩
  · exact ⟨r, hrev, Or.inr ⟨a, ctx, hR⟩⟩
  · exact ⟨_, hrev, Or.inl rfl⟩

/-- The submission of the C1 failing run. -/
def prC1 : PrData :=
  { number := 7, title := "t"
    files := [{ filename := "app.py", status := "modified", additions := 1
                deletions := 0, patch := "" }] }

/-- The review the degraded call would produce in the C1 failing run. -/
def reviewOkC1 : ReviewResult :=
  { pr_number := 7, overall_assessment := "ok", approval_recommendation := "approve"
    comments := [], summary := "fine"
    stats := { critical := 0, warning := 0, suggestion := 0, total := 0 } }

/-- Capabilities of the C1 failing run: analysis and retrieval succeed;
Review-Generation fails on the real merged context but succeeds on the
degraded context-unavailable call. -/
def capC1 : Capabilities :=
  { fileAnalysis := fun _ => .ok { categories := some ["feature"]
                                   risk_level := some "low", summary := some "adds x" }
    overallSummary := .ok "summary"
    ctxRes := fun _ => .ok { similar_reviews := [], coding_standards := []
                             documentation := [], summary := "ctx" }
    reviewRes := fun _ ctx =>
      if ctx.summary = degradedContext.summary then .ok reviewOkC1
      else .error "llm unavailable" }

/-- **C1**: in a run whose Review stage (after context retrieval) fails,
the error node does not attempt the degraded recovery even though the
degraded Review-Generation call would succeed: the run ends `failed` with
the fallback review.  In general no run ever terminates as
`completed_with_errors` - the degraded-recovery branch is unreachable,
because every path into the error node has overwritten the status. -/
theorem c1_degraded_recovery_unreachable :
    (runWorkflow capC1 prC1).status = "failed"
    ∧ (runWorkflow capC1 prC1).review =
        some (fallbackReview 7 ["Review generation failed: llm unavailable"])
    ∧ capC1.reviewRes analysisEx degradedContext = Except.ok reviewOkC1
    ∧ (∀ (cap : Capabilities) (pr : PrData),
        (runWorkflow cap pr).status = "completed"
        ∨ (runWorkflow cap pr).status = "failed") := by
  refine ⟨by decide, by decide, by rfl, ?_⟩
  intro cap pr
  rcases workflow_terminal cap pr with ⟨hs, _⟩ | ⟨hs, _⟩
  · exact Or.inl hs
  · exact Or.inr hs

/-- A per-file context with duplicate content for the C6 witness. -/
def ctxBundleEx : RetrievedContext :=
  { similar_reviews := [{ content := "use f-strings", source := "past_review" },
                        { content := "use f-strings", source := "past_review" }]
    coding_standards := [{ content := "no secrets", source := "coding_standard" }]
    documentation := [], summary := "s" }

/-- Witness for C6 at a concrete mapping: caps and pairwise-distinct
content prefixes hold for the merged context. -/
theorem c6_witness :
    (mergeContexts [("a.py", ctxBundleEx)]).similar_reviews.length ≤ 10
    ∧ (mergeContexts [("a.py", ctxBundleEx)]).similar_reviews.Pairwise
        (fun a b => contextItemKey a ≠ contextItemKey b) :=
  ⟨(c6_merged_context_caps [("a.py", ctxBundleEx)]).2.2.2.1,
   (c6_merged_context_caps [("a.py", ctxBundleEx)]).2.2.2.2.2.2.1⟩
